import Mathlib

/-
Verification of the writekit change-orchestration engine (src/lib.rs, src/main.rs)
against its natural-language specification.

The Rust source is shallowly embedded: pure path manipulation becomes Lean
functions mirroring Rust std::path semantics for file names; the effectful
functions (convert, handle_proc, handle_write, Monitor::watch, Loading::start and
Loading::finish, and the progress-bar ticking thread) become functions producing
explicit traces of the actions they perform, parameterised over the outcomes of
the external world (process-spawn results, backend watch results, channel
signals).
-/

namespace Writekit

/-! ## Path model

Rust `Path::extension` returns the portion of the file name after the last `.`,
unless there is no `.` or the only `.` is the leading character of the file
name, in which case it returns none.  `PathBuf::set_extension` truncates the
file name to its stem and appends `.` plus the new extension; it is a no-op
when the path has no file name.  A path is modelled as its directory components
plus its final component (`name`); `name = []` encodes the absence of a file
name. -/

/-- Locate the last `.` in the tail of a file name: returns the characters
before it and after it, or none when the tail has no dot. -/
def goDot : List Char → Option (List Char × List Char)
  | [] => none
  | c :: rest =>
      match goDot rest with
      | some (st, e) => some (c :: st, e)
      | none => if c = '.' then some ([], rest) else none

/-- Split a file name into stem and extension, Rust-style: the leading
character never begins an extension, so a dot is only significant from the
second character on. -/
def splitAtLastDot : List Char → List Char × Option (List Char)
  | [] => ([], none)
  | c :: rest =>
      match goDot rest with
      | some (st, e) => (c :: st, some e)
      | none => (c :: rest, none)

/-- A filesystem path: directory components plus the final component.
`name = []` means the path has no file name (as with `/` or a path ending in
`..` in Rust). -/
structure RPath where
  dir : List String
  name : List Char
deriving DecidableEq, Repr

/-- Rust `Path::extension`. -/
def RPath.extension (p : RPath) : Option (List Char) :=
  (splitAtLastDot p.name).2

/-- Rust `Path::file_stem` (as a list of characters; meaningful when the path
has a file name). -/
def RPath.stem (p : RPath) : List Char :=
  (splitAtLastDot p.name).1

/-- Rust `PathBuf::set_extension`: no-op without a file name, otherwise the
file name becomes the stem followed by `.` and the new extension (just the stem
when the new extension is empty). -/
def RPath.setExtension (p : RPath) (e : List Char) : RPath :=
  if p.name = [] then p
  else { p with name := (splitAtLastDot p.name).1 ++ (if e = [] then [] else '.' :: e) }

/-! ## Converters and the conversion pipeline (src/lib.rs)

`Converter` mirrors the strum-serialised enum; `convert` builds the external
command (verbosity flags, then positional arguments) and spawns it; the spawn
outcome is a parameter (`sp`), since it is decided by the operating system.
`handle_proc` mirrors the stream-surfacing code exactly: it touches the child's
output pipes only in verbose mode, and then reads all of stdout before any of
stderr.  `handle_write` mirrors the extension dispatch.  All effects are
recorded in an `Act` trace, and the `Option String` component is the `Result`:
`some e` means the Rust function returned `Err(e)` via `?`. -/

inductive Converter where
  | MarkdownToHtml
  | AsciidocToHtml
  | HtmlToPdf
  | HtmlToPng
deriving DecidableEq, Repr

/-- The strum `serialize` strings: the external binary invoked per converter. -/
def Converter.binName : Converter → String
  | Converter.MarkdownToHtml => "pandoc"
  | Converter.AsciidocToHtml => "asciidoctor"
  | Converter.HtmlToPdf => "wkhtmltopdf"
  | Converter.HtmlToPng => "wkhtmltoimage"

/-- A spawned child process: the buffered contents of its two captured output
pipes, and whether the process is still running when the caller handles it.
The code never waits on or queries the child, so `alive` is a free field of the
environment. -/
structure Child where
  stdoutLines : List String
  stderrLines : List String
  alive : Bool
deriving DecidableEq, Repr

inductive StreamKind where
  | out
  | err
deriving DecidableEq, Repr

/-- A command-line argument: a literal flag or a path. -/
inductive Arg where
  | str (s : String)
  | path (p : RPath)
deriving DecidableEq, Repr

/-- One observable action of the pipeline. -/
inductive Act where
  | loadingStart
  | loadingFinish
  | printConv (input output : RPath)
  | printBlank
  | spawn (c : Converter) (input output : RPath) (args : List Arg)
  | spawnFail (c : Converter) (input output : RPath) (args : List Arg)
  | readLine (c : Converter) (k : StreamKind) (line : String)
  | spawnImgcat (p : RPath)
deriving DecidableEq, Repr

/-- The converter-specific verbosity flags from `convert`'s first `match`:
markup converters get `--verbose` when verbose; rendering converters get
`--log-level none` when NOT verbose. -/
def verbosityArgs (c : Converter) (verbose : Bool) : List Arg :=
  match c with
  | Converter.MarkdownToHtml | Converter.AsciidocToHtml =>
      if verbose then [Arg.str "--verbose"] else []
  | Converter.HtmlToPdf | Converter.HtmlToPng =>
      if !verbose then [Arg.str "--log-level", Arg.str "none"] else []

/-- The positional arguments from `convert`'s second `match`. -/
def positionalArgs (c : Converter) (input output : RPath) : List Arg :=
  match c with
  | Converter.MarkdownToHtml => [Arg.path input, Arg.str "-o", Arg.path output]
  | Converter.AsciidocToHtml => [Arg.path input]
  | Converter.HtmlToPdf | Converter.HtmlToPng => [Arg.path input, Arg.path output]

/-- The full argument list `convert` hands to the spawned command. -/
def convertArgs (c : Converter) (verbose : Bool) (input output : RPath) : List Arg :=
  verbosityArgs c verbose ++ positionalArgs c input output

/-- `convert` from src/lib.rs: prints the `input -> output` line unless quiet
or display, builds the command with piped stdout/stderr, and spawns it. -/
def convert (sp : Converter → Except String Child) (c : Converter)
    (input output : RPath) (display verbose quiet : Bool) :
    List Act × Except String Child :=
  let pr := if !quiet && !display then [Act.printConv input output] else []
  let args := convertArgs c verbose input output
  match sp c with
  | Except.ok child => (pr ++ [Act.spawn c input output args], Except.ok child)
  | Except.error e => (pr ++ [Act.spawnFail c input output args], Except.error e)

/-- `handle_proc` from src/lib.rs: in verbose mode, iterate over all stdout
lines, then over all stderr lines; otherwise do nothing (the pipes are dropped
unread and the child is never waited on). -/
def handle_proc (child : Child) (c : Converter) (verbose : Bool) : List Act :=
  if verbose then
    child.stdoutLines.map (fun l => Act.readLine c StreamKind.out l)
      ++ child.stderrLines.map (fun l => Act.readLine c StreamKind.err l)
  else []

/-- The characters of the recognised extensions. -/
def mdChars : List Char := ['m', 'd']

def adocChars : List Char := ['a', 'd', 'o', 'c']

def htmlChars : List Char := ['h', 't', 'm', 'l']

def pdfChars : List Char := ['p', 'd', 'f']

def pngChars : List Char := ['p', 'n', 'g']

/-- The `"md"` and `"adoc"` arms of `handle_write` (identical up to the
converter): start the loading bar, derive the `.html` output path, convert,
and surface the child's output.  A spawn failure propagates via `?`. -/
def handleMarkup (sp : Converter → Except String Child) (c : Converter)
    (path : RPath) (display verbose quiet : Bool) : List Act × Option String :=
  let outhtml := RPath.setExtension path htmlChars
  let cr := convert sp c path outhtml display verbose quiet
  match cr.2 with
  | Except.error e => (Act.loadingStart :: cr.1, some e)
  | Except.ok child => (Act.loadingStart :: (cr.1 ++ handle_proc child c verbose), none)

/-- The `"html"` arm of `handle_write`: spawn the PDF converter, then the PNG
converter, print a blank separator line unless quiet or display, then surface
the two children's output in order.  Each `?` aborts the rest of the arm. -/
def handleHtml (sp : Converter → Except String Child) (path : RPath)
    (display verbose quiet : Bool) : List Act × Option String :=
  let outpdf := RPath.setExtension path pdfChars
  let cr1 := convert sp Converter.HtmlToPdf path outpdf display verbose quiet
  match cr1.2 with
  | Except.error e => (cr1.1, some e)
  | Except.ok procPdf =>
      let outpng := RPath.setExtension path pngChars
      let cr2 := convert sp Converter.HtmlToPng path outpng display verbose quiet
      match cr2.2 with
      | Except.error e => (cr1.1 ++ cr2.1, some e)
      | Except.ok procPng =>
          let tr3 := if !quiet && !display then [Act.printBlank] else []
          (cr1.1 ++ cr2.1 ++ tr3
            ++ handle_proc procPdf Converter.HtmlToPdf verbose
            ++ handle_proc procPng Converter.HtmlToPng verbose, none)

/-- The `"png"` arm of `handle_write`: unless quiet, finish the loading bar
and, if display was requested, spawn `imgcat` on the path (whose spawn outcome
`img` is decided by the environment). -/
def handlePng (img : Except String Unit) (path : RPath)
    (display quiet : Bool) : List Act × Option String :=
  if quiet then ([], none)
  else if display then
    match img with
    | Except.ok _ => ([Act.loadingFinish, Act.spawnImgcat path], none)
    | Except.error e => ([Act.loadingFinish], some e)
  else ([Act.loadingFinish], none)

/-- `handle_write` from src/lib.rs: dispatch on the changed path's extension;
paths without an extension, and unrecognised extensions, are a no-op `Ok(())`. -/
def handle_write (sp : Converter → Except String Child) (img : Except String Unit)
    (path : RPath) (display verbose quiet : Bool) : List Act × Option String :=
  match RPath.extension path with
  | none => ([], none)
  | some ext =>
      if ext = mdChars then
        handleMarkup sp Converter.MarkdownToHtml path display verbose quiet
      else if ext = adocChars then
        handleMarkup sp Converter.AsciidocToHtml path display verbose quiet
      else if ext = htmlChars then
        handleHtml sp path display verbose quiet
      else if ext = pngChars then
        handlePng img path display quiet
      else ([], none)

/-! ## Trace projections -/

/-- The lines a trace reads from stream `k`. -/
def readsOf (tr : List Act) (k : StreamKind) : List String :=
  tr.filterMap fun a =>
    match a with
    | Act.readLine _ k' l => if k' = k then some l else none
    | _ => none

/-- The converter invocations attempted in a trace (successful or failed
spawns), with their input and output paths. -/
def spawnActsOf : List Act → List (Converter × RPath × RPath)
  | [] => []
  | Act.spawn c i o _ :: rest => (c, i, o) :: spawnActsOf rest
  | Act.spawnFail c i o _ :: rest => (c, i, o) :: spawnActsOf rest
  | _ :: rest => spawnActsOf rest

/-- Whether an action belongs to the conversion step of converter `c`. -/
def mentionsConv (a : Act) (c : Converter) : Bool :=
  match a with
  | Act.spawn c' _ _ _ => c' = c
  | Act.spawnFail c' _ _ _ => c' = c
  | Act.readLine c' _ _ => c' = c
  | _ => false

/-! ## Monitor (src/lib.rs, `Monitor::watch`)

The event loop receives debounced event results from the notify channel.  For
a `Create` event it first re-invokes `watcher.watch(path, Recursive)` (whose
outcome `wf path` is decided by the backend; a failure propagates via `?` and
ends the loop), then hands the event to the handler.  Channel errors are handed
to the handler as errors and the loop continues.  The loop itself is infinite;
it is modelled on an arbitrary finite prefix of received results. -/

inductive MEvent where
  | create (p : RPath)
  | write (p : RPath)
  | remove (p : RPath)
  | other
deriving DecidableEq, Repr

inductive MAct where
  | register (p : RPath)
  | handleOk (e : MEvent)
  | handleErr (s : String)
deriving DecidableEq, Repr

/-- The body of `Monitor::watch`'s `loop`, run over a finite prefix of received
event results.  The second component is `some e` when the loop aborted with
`Err(e)` (a failed re-registration propagating through `?`). -/
def watchLoop (wf : RPath → Except String Unit) :
    List (Except String MEvent) → List MAct × Option String
  | [] => ([], none)
  | Except.error s :: rest =>
      (MAct.handleErr s :: (watchLoop wf rest).1, (watchLoop wf rest).2)
  | Except.ok ev :: rest =>
      match ev with
      | MEvent.create p =>
          match wf p with
          | Except.ok _ =>
              (MAct.register p :: MAct.handleOk ev :: (watchLoop wf rest).1,
                (watchLoop wf rest).2)
          | Except.error e => ([], some e)
      | _ => (MAct.handleOk ev :: (watchLoop wf rest).1, (watchLoop wf rest).2)

/-- Initial registration in `Monitor::watch`: each configured path is watched
recursively; the first failure propagates via `?`. -/
def registerAll (wf : RPath → Except String Unit) :
    List RPath → List MAct × Option String
  | [] => ([], none)
  | p :: rest =>
      match wf p with
      | Except.ok _ => (MAct.register p :: (registerAll wf rest).1, (registerAll wf rest).2)
      | Except.error e => ([], some e)

/-- `Monitor::watch` in full: initial registration of the configured paths,
then the event loop. -/
def monitorWatch (wf : RPath → Except String Unit) (paths : List RPath)
    (events : List (Except String MEvent)) : List MAct × Option String :=
  let r0 := registerAll wf paths
  match r0.2 with
  | some s => (r0.1, some s)
  | none => (r0.1 ++ (watchLoop wf events).1, (watchLoop wf events).2)

/-! ## Loading (src/lib.rs, `Loading::start` / `Loading::finish`)

Each `start` creates a fresh channel, overwrites `self.thread` with the new
`Sender` — which drops the previous `Sender`, disconnecting the prior task's
channel so its next `try_recv` yields `Disconnected` and it stops — and only
then spawns the new ticking task.  `finish` sends `()` on the current channel.
A task is modelled by its channel id and whether a stop signal (a sent `()` or
a disconnection) is observable to it. -/

structure LTask where
  id : Nat
  stopSignalled : Bool
deriving DecidableEq, Repr

structure LState where
  thread : Option Nat
  tasks : List LTask
  nextId : Nat
deriving DecidableEq, Repr

/-- Make the stop signal observable to every task listening on channel `i`. -/
def signalTask (tasks : List LTask) (i : Nat) : List LTask :=
  tasks.map fun t => if t.id = i then { t with stopSignalled := true } else t

inductive LOp where
  | start
  | finish
deriving DecidableEq, Repr

def lstep (s : LState) : LOp → LState
  | LOp.start =>
      let tasks' :=
        match s.thread with
        | some i => signalTask s.tasks i
        | none => s.tasks
      { thread := some s.nextId
        tasks := tasks' ++ [⟨s.nextId, false⟩]
        nextId := s.nextId + 1 }
  | LOp.finish =>
      match s.thread with
      | some i => { s with tasks := signalTask s.tasks i }
      | none => s

def linit : LState := ⟨none, [], 0⟩

def lrun (ops : List LOp) : LState := ops.foldl lstep linit

/-- Number of ticking tasks that have not observed a stop signal. -/
def activeTasks (s : LState) : Nat :=
  (s.tasks.filter fun t => !t.stopSignalled).length

/-- The order of the two relevant happenings inside one `Loading::start` call:
the overwrite of `self.thread` (dropping — and thereby signalling — the prior
`Sender`) textually precedes the `thread::spawn` of the new task. -/
inductive LAct where
  | sigOld (i : Nat)
  | spawnNew (i : Nat)
deriving DecidableEq, Repr

def startActions (s : LState) : List LAct :=
  (match s.thread with
   | some i => [LAct.sigOld i]
   | none => []) ++ [LAct.spawnNew s.nextId]

/-! ## The ticking task (the closure spawned by `Loading::start`)

One iteration: `try_recv` (a stop signal or disconnection finalises the bar
and breaks), `bar.inc(1)`, then finalise and break if the position reached
100, else sleep and repeat.  `signal i` says whether iteration `i` observes a
stop signal.  The result is the list of positions after each increment and
whether the bar was finalised (`finish` / `finish_and_clear`). -/

def tickRun (signal : Nat → Bool) (i : Nat) (pos : Nat) : List Nat × Bool :=
  if signal i then ([], true)
  else if 100 ≤ pos + 1 then ([pos + 1], true)
  else
    let r := tickRun signal (i + 1) (pos + 1)
    ((pos + 1) :: r.1, r.2)
termination_by 100 - pos
decreasing_by
  simp_wf
  omega

/-! ## Spec-side predicates and concrete fixtures -/

/-- The spec's notion of output-path derivation: `out` equals `src` with only
its extension replaced by `e` (same directory, same stem, extension exactly
`e`). -/
def replacesExt (src : RPath) (e : List Char) (out : RPath) : Prop :=
  out.dir = src.dir ∧ out.stem = src.stem ∧ RPath.extension out = some e
    ∧ out.name = src.stem ++ '.' :: e

/-- Invariant of the `Loading` state: any ticking task that has not observed a
stop signal is the one whose channel `self.thread` currently holds. -/
def LInvP (s : LState) : Prop :=
  ∀ t ∈ s.tasks, t.stopSignalled = false → s.thread = some t.id

/-- Whether an action reads a line from a child's output stream. -/
def isReadAct : Act → Bool
  | Act.readLine _ _ _ => true
  | _ => false

/-- A child with one buffered line on each stream, still running. -/
def child0 : Child := ⟨["o1"], ["e1"], true⟩

/-- An environment in which every converter spawn succeeds. -/
def spawnOkAll : Converter → Except String Child := fun _ => Except.ok child0

/-- An environment in which spawning the HTML-to-PDF converter fails and every
other spawn succeeds. -/
def spawnPdfFails : Converter → Except String Child
  | Converter.HtmlToPdf => Except.error "spawn failure"
  | _ => Except.ok child0

def pHtml : RPath := ⟨[], ['d', 'o', 'c', '.', 'h', 't', 'm', 'l']⟩

def pMd : RPath := ⟨[], ['d', 'o', 'c', '.', 'm', 'd']⟩

def pPng : RPath := ⟨[], ['d', 'o', 'c', '.', 'p', 'n', 'g']⟩

/-- A path with a directory component but no file name (hence no stem). -/
def pNoName : RPath := ⟨["d"], []⟩

/-- A watch backend that fails to register exactly the path `p0`. -/
def wfFail (p0 : RPath) : RPath → Except String Unit :=
  fun p => if p = p0 then Except.error "watch failed" else Except.ok ()

/-! ## Path lemmas -/

theorem goDot_eq_none_of_no_dot {cs : List Char} (h : '.' ∉ cs) : goDot cs = none := by
  induction cs with
  | nil => rfl
  | cons c rest ih =>
      have hc : ¬ c = '.' := fun hc => h (hc ▸ List.mem_cons_self c rest)
      have hr : '.' ∉ rest := fun hm => h (List.mem_cons_of_mem c hm)
      simp [goDot, ih hr, hc]

theorem goDot_append {ys : List Char} (xs : List Char) (hy : '.' ∉ ys) :
    goDot (xs ++ '.' :: ys) = some (xs, ys) := by
  induction xs with
  | nil => simp [goDot, goDot_eq_none_of_no_dot hy]
  | cons c xs ih => simp [goDot, ih]

theorem splitAtLastDot_append {ys : List Char} (c : Char) (st : List Char)
    (hy : '.' ∉ ys) :
    splitAtLastDot ((c :: st) ++ '.' :: ys) = (c :: st, some ys) := by
  simp [splitAtLastDot, goDot_append st hy]

theorem goDot_sound {cs st e : List Char} (h : goDot cs = some (st, e)) :
    cs = st ++ '.' :: e := by
  induction cs generalizing st e with
  | nil => simp [goDot] at h
  | cons c rest ih =>
      rw [goDot] at h
      cases hr : goDot rest with
      | some pr =>
          obtain ⟨st', e'⟩ := pr
          rw [hr] at h
          have h1 : c :: st' = st := congrArg Prod.fst (Option.some.inj h)
          have h2 : e' = e := congrArg Prod.snd (Option.some.inj h)
          subst h1
          subst h2
          simp [ih hr]
      | none =>
          rw [hr] at h
          by_cases hc : c = '.'
          · rw [if_pos hc] at h
            have h1 : ([] : List Char) = st := congrArg Prod.fst (Option.some.inj h)
            have h2 : rest = e := congrArg Prod.snd (Option.some.inj h)
            subst h1
            subst h2
            simp [hc]
          · rw [if_neg hc] at h
            exact absurd h (by simp)

theorem splitAtLastDot_sound {cs st e : List Char}
    (h : splitAtLastDot cs = (st, some e)) : st ≠ [] ∧ cs = st ++ '.' :: e := by
  cases cs with
  | nil => simp [splitAtLastDot] at h
  | cons c rest =>
      rw [splitAtLastDot] at h
      cases hr : goDot rest with
      | some pr =>
          obtain ⟨st', e'⟩ := pr
          rw [hr] at h
          have h1' : c :: st' = st := (Prod.mk.inj h).1
          have h2 : some e' = some e := (Prod.mk.inj h).2
          have h2' : e' = e := Option.some.inj h2
          subst h1'
          subst h2'
          exact ⟨by simp, by simp [goDot_sound hr]⟩
      | none =>
          rw [hr] at h
          exact absurd (Prod.mk.inj h).2 (by simp)

/-- Core property of extension replacement: when the source has an extension,
`set_extension` keeps the directory and stem and installs exactly the new
(dot-free, nonempty) extension. -/
theorem setExtension_spec (p : RPath) {oldE : List Char} (newE : List Char)
    (h : RPath.extension p = some oldE) (hne : newE ≠ []) (hnd : '.' ∉ newE) :
    (RPath.setExtension p newE).dir = p.dir ∧
    (RPath.setExtension p newE).name = p.stem ++ '.' :: newE ∧
    RPath.extension (RPath.setExtension p newE) = some newE ∧
    (RPath.setExtension p newE).stem = p.stem := by
  have hsp : splitAtLastDot p.name = (p.stem, some oldE) := by
    unfold RPath.extension at h
    unfold RPath.stem
    cases hs : splitAtLastDot p.name with
    | mk a b => rw [hs] at h; simp_all
  obtain ⟨hstne, hname⟩ := splitAtLastDot_sound hsp
  have hnn : p.name ≠ [] := by
    rw [hname]
    intro hcon
    exact hstne (List.append_eq_nil.mp hcon).1
  obtain ⟨c, st, hcst⟩ : ∃ c st, p.stem = c :: st := by
    cases hst : p.stem with
    | nil => exact absurd hst hstne
    | cons c st => exact ⟨c, st, rfl⟩
  have hsetname : (RPath.setExtension p newE).name = p.stem ++ '.' :: newE := by
    unfold RPath.setExtension
    rw [if_neg hnn]
    simp [hsp, hne]
  have hsetdir : (RPath.setExtension p newE).dir = p.dir := by
    unfold RPath.setExtension
    rw [if_neg hnn]
  have hsplit : splitAtLastDot ((RPath.setExtension p newE).name) = (p.stem, some newE) := by
    rw [hsetname, hcst]
    exact splitAtLastDot_append c st hnd
  refine ⟨hsetdir, hsetname, ?_, ?_⟩
  · unfold RPath.extension
    rw [hsplit]
  · unfold RPath.stem
    rw [hsplit]
    rfl

/-! ## Trace projection lemmas -/

theorem readsOf_append (a b : List Act) (k : StreamKind) :
    readsOf (a ++ b) k = readsOf a k ++ readsOf b k := by
  simp [readsOf]

theorem readsOf_readLines_same (ls : List String) (c : Converter) (k : StreamKind) :
    readsOf (ls.map fun l => Act.readLine c k l) k = ls := by
  induction ls with
  | nil => rfl
  | cons l ls ih => simp only [List.map_cons, readsOf, List.filterMap_cons] at ih ⊢; simp [ih]

theorem readsOf_readLines_ne (ls : List String) (c : Converter) {k k' : StreamKind}
    (h : ¬ k = k') :
    readsOf (ls.map fun l => Act.readLine c k l) k' = [] := by
  induction ls with
  | nil => rfl
  | cons l ls ih => simp only [List.map_cons, readsOf, List.filterMap_cons] at ih ⊢; simp [ih, h]

theorem spawnActsOf_append (a b : List Act) :
    spawnActsOf (a ++ b) = spawnActsOf a ++ spawnActsOf b := by
  induction a with
  | nil => rfl
  | cons x xs ih => cases x <;> simp [spawnActsOf, ih]

theorem spawnActsOf_reads (ls : List String) (c : Converter) (k : StreamKind) :
    spawnActsOf (ls.map fun l => Act.readLine c k l) = [] := by
  induction ls with
  | nil => rfl
  | cons l ls ih => simpa [spawnActsOf] using ih

theorem spawnActsOf_handle_proc (child : Child) (c : Converter) (v : Bool) :
    spawnActsOf (handle_proc child c v) = [] := by
  unfold handle_proc
  cases v with
  | false => rfl
  | true => simp [spawnActsOf_append, spawnActsOf_reads]

/-! ## Lemmas about `convert` -/

theorem convert_fst_ok {sp : Converter → Except String Child} {c : Converter} {child : Child}
    (h : sp c = Except.ok child) (i o : RPath) (d v q : Bool) :
    (convert sp c i o d v q).1
      = (if !q && !d then [Act.printConv i o] else [])
        ++ [Act.spawn c i o (convertArgs c v i o)] := by
  simp [convert, h]

theorem convert_snd_ok {sp : Converter → Except String Child} {c : Converter} {child : Child}
    (h : sp c = Except.ok child) (i o : RPath) (d v q : Bool) :
    (convert sp c i o d v q).2 = Except.ok child := by
  simp [convert, h]

theorem convert_fst_err {sp : Converter → Except String Child} {c : Converter} {e : String}
    (h : sp c = Except.error e) (i o : RPath) (d v q : Bool) :
    (convert sp c i o d v q).1
      = (if !q && !d then [Act.printConv i o] else [])
        ++ [Act.spawnFail c i o (convertArgs c v i o)] := by
  simp [convert, h]

theorem convert_snd_err {sp : Converter → Except String Child} {c : Converter} {e : String}
    (h : sp c = Except.error e) (i o : RPath) (d v q : Bool) :
    (convert sp c i o d v q).2 = Except.error e := by
  simp [convert, h]

/-! ## Claim C1 — stream draining in `handle_proc` -/

/-- C1 counterexample: the claim states that the runner never reads one output
stream to exhaustion while the other is unread and the process alive, and that
both streams are drained even when not verbose.  At the concrete child
`child0` (one buffered line per stream, process alive): with `verbose = false`
`handle_proc` reads neither stream (first conjunct), and with `verbose = true`
there is a point (after one action) at which stdout is fully exhausted while no
stderr line has been read (remaining conjuncts).  Both contradict the claim. -/
theorem c1_counterexample :
    (¬ (readsOf (handle_proc child0 Converter.HtmlToPdf false) StreamKind.out
          = child0.stdoutLines
        ∧ readsOf (handle_proc child0 Converter.HtmlToPdf false) StreamKind.err
          = child0.stderrLines))
    ∧ readsOf ((handle_proc child0 Converter.HtmlToPdf true).take 1) StreamKind.out
        = child0.stdoutLines
    ∧ readsOf ((handle_proc child0 Converter.HtmlToPdf true).take 1) StreamKind.err = []
    ∧ child0.stderrLines ≠ []
    ∧ child0.alive = true := by
  decide

/-- C1 amended: what `handle_proc` actually does.  When verbose it reads all of
stdout and all of stderr, but all of stdout strictly before any of stderr
(after `stdoutLines.length` actions stderr is still untouched), without regard
to whether the process is alive; when not verbose it performs no reads at all,
leaving both streams unread. -/
theorem c1_amended (child : Child) (c : Converter) :
    readsOf (handle_proc child c true) StreamKind.out = child.stdoutLines
    ∧ readsOf (handle_proc child c true) StreamKind.err = child.stderrLines
    ∧ readsOf ((handle_proc child c true).take child.stdoutLines.length)
        StreamKind.err = []
    ∧ handle_proc child c false = [] := by
  have htake :
      (handle_proc child c true).take child.stdoutLines.length
        = child.stdoutLines.map fun l => Act.readLine c StreamKind.out l := by
    unfold handle_proc
    rw [if_pos rfl]
    rw [show child.stdoutLines.length
        = (child.stdoutLines.map fun l => Act.readLine c StreamKind.out l).length
      from (List.length_map _ _).symm]
    exact List.take_left _ _
  refine ⟨?_, ?_, ?_, rfl⟩
  · unfold handle_proc
    rw [if_pos rfl, readsOf_append, readsOf_readLines_same,
      readsOf_readLines_ne _ _ (by decide)]
    simp
  · unfold handle_proc
    rw [if_pos rfl, readsOf_append, readsOf_readLines_same,
      readsOf_readLines_ne _ _ (by decide)]
    simp
  · rw [htake, readsOf_readLines_ne _ _ (by decide)]

/-! ## Claim C6 — converter argument construction -/

/-- C6: argument construction is deterministic per converter variant.  Markup
converters (pandoc, asciidoctor) get `--verbose` exactly when verbose;
rendering converters (wkhtmltopdf, wkhtmltoimage) get `--log-level none`
exactly when not verbose; together with each converter's positional shape. -/
theorem c6_verbosity_flags :
    (∀ i o : RPath, convertArgs Converter.MarkdownToHtml true i o
        = [Arg.str "--verbose", Arg.path i, Arg.str "-o", Arg.path o])
    ∧ (∀ i o : RPath, convertArgs Converter.AsciidocToHtml true i o
        = [Arg.str "--verbose", Arg.path i])
    ∧ (∀ i o : RPath, convertArgs Converter.MarkdownToHtml false i o
        = [Arg.path i, Arg.str "-o", Arg.path o])
    ∧ (∀ i o : RPath, convertArgs Converter.AsciidocToHtml false i o = [Arg.path i])
    ∧ (∀ i o : RPath, convertArgs Converter.HtmlToPdf false i o
        = [Arg.str "--log-level", Arg.str "none", Arg.path i, Arg.path o])
    ∧ (∀ i o : RPath, convertArgs Converter.HtmlToPng false i o
        = [Arg.str "--log-level", Arg.str "none", Arg.path i, Arg.path o])
    ∧ (∀ i o : RPath, convertArgs Converter.HtmlToPdf true i o
        = [Arg.path i, Arg.path o])
    ∧ (∀ i o : RPath, convertArgs Converter.HtmlToPng true i o
        = [Arg.path i, Arg.path o]) :=
  ⟨fun _ _ => rfl, fun _ _ => rfl, fun _ _ => rfl, fun _ _ => rfl,
   fun _ _ => rfl, fun _ _ => rfl, fun _ _ => rfl, fun _ _ => rfl⟩

/-! ## Claim C8 — derivation for paths without a file-name stem -/

/-- C8 counterexample: the claim states that a source path with no file-name
stem makes derivation fail with a naming error rather than succeed as a no-op.
On the concrete path `pNoName` (no file name, hence no stem and no extension),
`handle_write` performs no action and does NOT return an error: the run is a
silent no-op success, and no naming-error type exists in the code at all. -/
theorem c8_counterexample :
    (handle_write spawnOkAll (Except.ok ()) pNoName false false false).1 = []
    ∧ ¬ ((handle_write spawnOkAll (Except.ok ()) pNoName false false false).2.isSome
          = true) := by
  decide

/-- C8 amended: replacement of the extension is lossless (directory and stem
preserved, new extension installed exactly — see `setExtension_spec`), but a
source path with no file name (hence no stem) has no extension, so
`handle_write` returns `Ok(())` having done nothing; no naming error is ever
produced. -/
theorem c8_amended (sp : Converter → Except String Child) (img : Except String Unit)
    (d v q : Bool) (p : RPath) (h : p.name = []) :
    handle_write sp img p d v q = ([], none) := by
  unfold handle_write
  rw [show RPath.extension p = none from by
    unfold RPath.extension
    rw [h]
    rfl]

/-- Witness for C8's amended theorem at the concrete stemless path. -/
theorem c8_witness :
    handle_write spawnOkAll (Except.ok ()) pNoName false false false = ([], none) :=
  c8_amended spawnOkAll (Except.ok ()) false false false pNoName rfl

/-! ## Claim C10 — quiet png events are a complete no-op -/

/-- C10: for a path with extension `png` and `quiet = true`, `handle_write`
returns `Ok(())` with an empty trace: the loading bar is not finished and the
image-display process is not spawned, even when `display` is true. -/
theorem c10_quiet_png_noop (sp : Converter → Except String Child)
    (img : Except String Unit) (p : RPath) (d v : Bool)
    (h : RPath.extension p = some pngChars) :
    handle_write sp img p d v true = ([], none) := by
  unfold handle_write
  rw [h]
  rfl

/-- Witness for C10 at the concrete path `doc.png` with display requested. -/
theorem c10_witness :
    handle_write spawnOkAll (Except.ok ()) pPng true false true = ([], none) :=
  c10_quiet_png_noop spawnOkAll (Except.ok ()) pPng true false (by decide)

/-! ## Claim C2 — registration precedes delivery in `Monitor::watch` -/

/-- C2: in the Monitor's event loop, whenever the handler is invoked with a
`Create` event for a path, the recursive registration of that path
(`watcher.watch(path, RecursiveMode::Recursive)`) occurs strictly earlier in
the trace, so no create event reaches the consumer for a path the watch set
does not already contain. -/
theorem c2_register_before_delivery (wf : RPath → Except String Unit)
    (events : List (Except String MEvent)) (i : Nat) (p : RPath)
    (h : (watchLoop wf events).1.get? i = some (MAct.handleOk (MEvent.create p))) :
    ∃ j, j < i ∧ (watchLoop wf events).1.get? j = some (MAct.register p) := by
  induction events generalizing i with
  | nil => simp [watchLoop] at h
  | cons er rest ih =>
      cases er with
      | error s =>
          cases i with
          | zero => simp [watchLoop] at h
          | succ n =>
              obtain ⟨j, hj, hg⟩ := ih n (by simpa [watchLoop] using h)
              exact ⟨j + 1, by omega, by simpa [watchLoop] using hg⟩
      | ok ev =>
          cases ev with
          | create p' =>
              cases hwf : wf p' with
              | ok u =>
                  simp only [watchLoop, hwf] at h
                  match i with
                  | 0 => simp at h
                  | 1 =>
                      simp only [List.get?] at h
                      have : p' = p := by
                        have := Option.some.inj h
                        cases this
                        rfl
                      subst this
                      exact ⟨0, by omega, by simp [watchLoop, hwf]⟩
                  | Nat.succ (Nat.succ n) =>
                      obtain ⟨j, hj, hg⟩ := ih n (by simpa using h)
                      refine ⟨j + 2, by omega, ?_⟩
                      simpa [watchLoop, hwf] using hg
              | error e =>
                  simp [watchLoop, hwf] at h
          | write p' =>
              cases i with
              | zero => simp [watchLoop] at h
              | succ n =>
                  obtain ⟨j, hj, hg⟩ := ih n (by simpa [watchLoop] using h)
                  exact ⟨j + 1, by omega, by simpa [watchLoop] using hg⟩
          | remove p' =>
              cases i with
              | zero => simp [watchLoop] at h
              | succ n =>
                  obtain ⟨j, hj, hg⟩ := ih n (by simpa [watchLoop] using h)
                  exact ⟨j + 1, by omega, by simpa [watchLoop] using hg⟩
          | other =>
              cases i with
              | zero => simp [watchLoop] at h
              | succ n =>
                  obtain ⟨j, hj, hg⟩ := ih n (by simpa [watchLoop] using h)
                  exact ⟨j + 1, by omega, by simpa [watchLoop] using hg⟩

/-- Witness for C2: a concrete run delivering `Create doc.html` at index 1 has
its registration at index 0. -/
theorem c2_witness :
    ∃ j, j < 1
      ∧ (watchLoop (fun _ => Except.ok ())
          [Except.ok (MEvent.create pHtml)]).1.get? j = some (MAct.register pHtml) :=
  c2_register_before_delivery (fun _ => Except.ok ())
    [Except.ok (MEvent.create pHtml)] 1 pHtml (by decide)

/-! ## Claim C5 — fatality of watch errors after startup -/

/-- C5 counterexample: the claim states that backend watch errors after
startup — including failures while re-registering a newly created path — are
non-fatal and the loop continues to the next event.  In `Monitor::watch`, the
re-registration of a created path uses `?`: with a backend that fails to watch
`doc.html`, the loop aborts with the error, the create event never reaches the
handler, and the following write event is never consumed. -/
theorem c5_counterexample :
    (watchLoop (wfFail pHtml)
        [Except.ok (MEvent.create pHtml), Except.ok (MEvent.write pMd)]).2
      = some "watch failed"
    ∧ (watchLoop (wfFail pHtml)
        [Except.ok (MEvent.create pHtml), Except.ok (MEvent.write pMd)]).1 = []
    ∧ ¬ (MAct.handleOk (MEvent.write pMd)
          ∈ (watchLoop (wfFail pHtml)
              [Except.ok (MEvent.create pHtml), Except.ok (MEvent.write pMd)]).1) := by
  decide

/-- C5 amended: errors delivered on the event channel are passed to the
handler as error events and the loop continues; but a failure of the
re-registration `watcher.watch` call for a newly created path terminates
`Monitor::watch` with that error (as does a failure of initial
registration). -/
theorem c5_amended (wf : RPath → Except String Unit)
    (rest : List (Except String MEvent)) (s : String) :
    (watchLoop wf (Except.error s :: rest)
        = (MAct.handleErr s :: (watchLoop wf rest).1, (watchLoop wf rest).2))
    ∧ (∀ p e, wf p = Except.error e →
        watchLoop wf (Except.ok (MEvent.create p) :: rest) = ([], some e))
    ∧ (∀ p e paths events, wf p = Except.error e →
        monitorWatch wf (p :: paths) events = ([], some e)) := by
  refine ⟨rfl, ?_, ?_⟩
  · intro p e h
    simp [watchLoop, h]
  · intro p e paths events h
    simp [monitorWatch, registerAll, h]

/-- Witness for C5's amended theorem: the concrete failing backend aborts both
the re-registration path and initial registration. -/
theorem c5_witness :
    watchLoop (wfFail pHtml) [Except.ok (MEvent.create pHtml)] = ([], some "watch failed")
    ∧ monitorWatch (wfFail pHtml) [pHtml] [] = ([], some "watch failed") :=
  ⟨(c5_amended (wfFail pHtml) [] "x").2.1 pHtml "watch failed" rfl,
   (c5_amended (wfFail pHtml) [] "x").2.2 pHtml "watch failed" [] [] rfl⟩

/-! ## Claim C3 — at most one ticking task -/

theorem signalTask_kills {tasks : List LTask} {i : Nat}
    (h : ∀ t ∈ tasks, t.stopSignalled = false → t.id = i) :
    ∀ t ∈ signalTask tasks i, t.stopSignalled = true := by
  intro t' ht'
  rw [signalTask, List.mem_map] at ht'
  obtain ⟨t, ht, rfl⟩ := ht'
  by_cases hid : t.id = i
  · simp [hid]
  · simp only [hid, if_neg, ite_false]
    cases hs : t.stopSignalled with
    | true => rfl
    | false => exact absurd (h t ht hs) hid

theorem filter_nil_of_all_signalled {tasks : List LTask}
    (h : ∀ t ∈ tasks, t.stopSignalled = true) :
    tasks.filter (fun t => !t.stopSignalled) = [] := by
  induction tasks with
  | nil => rfl
  | cons t ts ih =>
      have ht := h t (List.mem_cons_self t ts)
      simp [List.filter_cons, ht, ih fun x hx => h x (List.mem_cons_of_mem t hx)]

theorem lstep_inv {s : LState} (hs : LInvP s) (op : LOp) :
    LInvP (lstep s op) ∧ activeTasks (lstep s op) ≤ 1
      ∧ (op = LOp.start → activeTasks (lstep s op) = 1) := by
  cases op with
  | start =>
      have hold : ∀ t ∈ (match s.thread with
          | some i => signalTask s.tasks i
          | none => s.tasks), t.stopSignalled = true := by
        cases hth : s.thread with
        | none =>
            intro t ht
            cases hsig : t.stopSignalled with
            | true => rfl
            | false =>
                have := hs t ht hsig
                rw [hth] at this
                exact absurd this (by simp)
        | some i =>
            exact signalTask_kills fun t ht hsig => by
              have := hs t ht hsig
              rw [hth] at this
              exact (Option.some.inj this).symm
      constructor
      · intro t ht hsig
        simp only [lstep] at ht ⊢
        rw [List.mem_append] at ht
        cases ht with
        | inl hin => exact absurd (hold t hin) (by simp [hsig])
        | inr hin =>
            rw [List.mem_singleton] at hin
            subst hin
            rfl
      · have hfilter : activeTasks (lstep s LOp.start) = 1 := by
          simp only [activeTasks, lstep, List.filter_append,
            filter_nil_of_all_signalled hold]
          rfl
        exact ⟨by omega, fun _ => hfilter⟩
  | finish =>
      have hall : ∀ t ∈ (lstep s LOp.finish).tasks, t.stopSignalled = true := by
        cases hth : s.thread with
        | none =>
            intro t ht
            simp only [lstep, hth] at ht
            cases hsig : t.stopSignalled with
            | true => rfl
            | false =>
                have := hs t ht hsig
                rw [hth] at this
                exact absurd this (by simp)
        | some i =>
            simp only [lstep, hth]
            exact signalTask_kills fun t ht hsig => by
              have := hs t ht hsig
              rw [hth] at this
              exact (Option.some.inj this).symm
      refine ⟨fun t ht hsig => absurd (hall t ht) (by simp [hsig]), ?_, ?_⟩
      · simp [activeTasks, filter_nil_of_all_signalled hall]
      · intro hcon
        exact absurd hcon (by decide)

theorem lrun_inv (ops : List LOp) : LInvP (lrun ops) ∧ activeTasks (lrun ops) ≤ 1 := by
  suffices h : ∀ s, LInvP s → activeTasks s ≤ 1 →
      LInvP (ops.foldl lstep s) ∧ activeTasks (ops.foldl lstep s) ≤ 1 by
    refine h linit (fun t ht => absurd ht (by simp [linit])) (by decide)
  induction ops with
  | nil => exact fun s h1 h2 => ⟨h1, h2⟩
  | cons op ops ih =>
      intro s h1 h2
      have hst := lstep_inv h1 op
      exact ih (lstep s op) hst.1 hst.2.1

/-- C3: at most one ticking task is ever active.  First conjunct: after any
sequence of `start`/`finish` calls, at most one spawned task has not observed a
stop signal.  Second: two `start` calls with no intervening `finish` leave
exactly one active task.  Third: within one `start` call, the signal to the
prior task (the drop of the old `Sender` when `self.thread` is overwritten)
precedes the `thread::spawn` of the new task. -/
theorem c3_single_tick_task :
    (∀ ops : List LOp, activeTasks (lrun ops) ≤ 1)
    ∧ activeTasks (lrun [LOp.start, LOp.start]) = 1
    ∧ (∀ s : LState, ∀ i : Nat, s.thread = some i →
        startActions s = [LAct.sigOld i, LAct.spawnNew s.nextId]) := by
  refine ⟨fun ops => (lrun_inv ops).2, by decide, ?_⟩
  intro s i h
  simp [startActions, h]

/-- Witness for C3 at concrete inputs: a double `start` run, and the action
order of a `start` on a state whose channel is occupied. -/
theorem c3_witness :
    activeTasks (lrun [LOp.start, LOp.start]) ≤ 1
    ∧ startActions ⟨some 0, [⟨0, false⟩], 1⟩ = [LAct.sigOld 0, LAct.spawnNew 1] :=
  ⟨c3_single_tick_task.1 [LOp.start, LOp.start],
   c3_single_tick_task.2.2 ⟨some 0, [⟨0, false⟩], 1⟩ 0 rfl⟩

/-! ## Claim C9 — the progress indicator never exceeds 100 -/

theorem tickRun_le (sig : Nat → Bool) :
    ∀ fuel pos i, 100 - pos ≤ fuel → pos ≤ 99 →
      (∀ q ∈ (tickRun sig i pos).1, q ≤ 100) ∧ (tickRun sig i pos).2 = true := by
  intro fuel
  induction fuel with
  | zero => intro pos i hf h99; omega
  | succ n ih =>
      intro pos i hf h99
      rw [tickRun]
      by_cases hs : sig i = true
      · simp [hs]
      · rw [if_neg hs]
        by_cases hdone : 100 ≤ pos + 1
        · rw [if_pos hdone]
          constructor
          · intro q hq
            rw [List.mem_singleton] at hq
            omega
          · rfl
        · rw [if_neg hdone]
          have hrec := ih (pos + 1) (i + 1) (by omega) (by omega)
          constructor
          · intro q hq
            rw [List.mem_cons] at hq
            cases hq with
            | inl h => omega
            | inr h => exact hrec.1 q h
          · exact hrec.2

/-- C9: for every execution of the ticking task (every pattern of stop
signals), every position the bar reaches is at most 100, and the run finalizes
the bar (`finish` or `finish_and_clear`) and stops incrementing. -/
theorem c9_progress_capped (sig : Nat → Bool) :
    ((tickRun sig 0 0).1.all fun q => decide (q ≤ 100)) = true
    ∧ (tickRun sig 0 0).2 = true := by
  have h := tickRun_le sig 100 0 0 (by omega) (by omega)
  refine ⟨?_, h.2⟩
  rw [List.all_eq_true]
  intro q hq
  simpa using h.1 q hq

/-! ## Lemmas about `handle_write`'s dispatch and traces -/

theorem handle_write_md {p : RPath} (hext : RPath.extension p = some mdChars)
    (sp : Converter → Except String Child) (img : Except String Unit) (d v q : Bool) :
    handle_write sp img p d v q = handleMarkup sp Converter.MarkdownToHtml p d v q := by
  unfold handle_write
  rw [hext]
  rfl

theorem handle_write_adoc {p : RPath} (hext : RPath.extension p = some adocChars)
    (sp : Converter → Except String Child) (img : Except String Unit) (d v q : Bool) :
    handle_write sp img p d v q = handleMarkup sp Converter.AsciidocToHtml p d v q := by
  unfold handle_write
  rw [hext]
  rfl

theorem handle_write_html {p : RPath} (hext : RPath.extension p = some htmlChars)
    (sp : Converter → Except String Child) (img : Except String Unit) (d v q : Bool) :
    handle_write sp img p d v q = handleHtml sp p d v q := by
  unfold handle_write
  rw [hext]
  rfl

theorem spawnActsOf_print_if (i o : RPath) (b : Prop) [Decidable b] :
    spawnActsOf (if b then [Act.printConv i o] else []) = [] := by
  by_cases hb : b
  · rw [if_pos hb]; rfl
  · rw [if_neg hb]; rfl

theorem spawnActsOf_blank_if (b : Prop) [Decidable b] :
    spawnActsOf (if b then [Act.printBlank] else []) = [] := by
  by_cases hb : b
  · rw [if_pos hb]; rfl
  · rw [if_neg hb]; rfl

theorem spawnActsOf_handleMarkup {sp : Converter → Except String Child}
    {child : Child} (c : Converter) {p : RPath}
    (hok : sp c = Except.ok child) (d v q : Bool) :
    spawnActsOf (handleMarkup sp c p d v q).1
      = [(c, p, RPath.setExtension p htmlChars)] := by
  simp only [handleMarkup, convert_snd_ok hok, convert_fst_ok hok]
  simp [spawnActsOf, spawnActsOf_append, spawnActsOf_print_if, spawnActsOf_handle_proc]

theorem spawnActsOf_handleHtml {sp : Converter → Except String Child}
    {cpdf cpng : Child} {p : RPath}
    (hpd : sp Converter.HtmlToPdf = Except.ok cpdf)
    (hpn : sp Converter.HtmlToPng = Except.ok cpng) (d v q : Bool) :
    spawnActsOf (handleHtml sp p d v q).1
      = [(Converter.HtmlToPdf, p, RPath.setExtension p pdfChars),
         (Converter.HtmlToPng, p, RPath.setExtension p pngChars)] := by
  simp only [handleHtml, convert_snd_ok hpd, convert_snd_ok hpn,
    convert_fst_ok hpd, convert_fst_ok hpn]
  simp [spawnActsOf, spawnActsOf_append, spawnActsOf_print_if, spawnActsOf_blank_if,
    spawnActsOf_handle_proc]

theorem mem_print_if {i o : RPath} {b : Prop} [Decidable b] {a : Act}
    (h : a ∈ if b then [Act.printConv i o] else []) : a = Act.printConv i o := by
  by_cases hb : b
  · rw [if_pos hb, List.mem_singleton] at h
    exact h
  · rw [if_neg hb] at h
    exact absurd h (List.not_mem_nil a)

theorem replacesExt_setExtension {p : RPath} {oldE : List Char} (newE : List Char)
    (h : RPath.extension p = some oldE) (hne : newE ≠ []) (hnd : '.' ∉ newE) :
    replacesExt p newE (RPath.setExtension p newE) := by
  obtain ⟨h1, h2, h3, h4⟩ := setExtension_spec p newE h hne hnd
  exact ⟨h1, h4, h3, h2⟩

/-! ## Claim C4 — independence of the two `.html` conversion steps -/

/-- C4 counterexample: the claim states that each step's failure (including
spawn failure) is collected and reported and does not prevent the other step
from being run.  At the concrete path `doc.html` with an environment in which
spawning the PDF converter fails: `handle_write` aborts with the spawn error
(propagated by `?` rather than collected), and no action of the PNG conversion
step — no spawn, no spawn attempt, no read — appears in the trace: the PNG
step is never run. -/
theorem c4_counterexample :
    (handle_write spawnPdfFails (Except.ok ()) pHtml false false false).2
      = some "spawn failure"
    ∧ ¬ (∃ a, a ∈ (handle_write spawnPdfFails (Except.ok ()) pHtml false false false).1
          ∧ mentionsConv a Converter.HtmlToPng = true) := by
  decide

/-- C4 amended: for an `.html` change the PDF step is spawned first and the
PNG step second.  When both spawns succeed, both converters are invoked (with
the derived output paths) and the handler returns `Ok`.  But a spawn failure
of the PDF step aborts `handle_write` with that error before the PNG step is
ever attempted, and a spawn failure of the PNG step aborts before either
child's output is handled (the already-spawned PDF process merely continues on
its own); non-zero exit statuses are never inspected at all. -/
theorem c4_amended (sp : Converter → Except String Child) (img : Except String Unit)
    (p : RPath) (d v q : Bool) (hext : RPath.extension p = some htmlChars) :
    (∀ cpdf cpng, sp Converter.HtmlToPdf = Except.ok cpdf →
        sp Converter.HtmlToPng = Except.ok cpng →
        (handle_write sp img p d v q).2 = none
        ∧ Act.spawn Converter.HtmlToPdf p (RPath.setExtension p pdfChars)
            (convertArgs Converter.HtmlToPdf v p (RPath.setExtension p pdfChars))
            ∈ (handle_write sp img p d v q).1
        ∧ Act.spawn Converter.HtmlToPng p (RPath.setExtension p pngChars)
            (convertArgs Converter.HtmlToPng v p (RPath.setExtension p pngChars))
            ∈ (handle_write sp img p d v q).1)
    ∧ (∀ e, sp Converter.HtmlToPdf = Except.error e →
        (handle_write sp img p d v q).2 = some e
        ∧ ∀ a ∈ (handle_write sp img p d v q).1,
            mentionsConv a Converter.HtmlToPng = false)
    ∧ (∀ cpdf e, sp Converter.HtmlToPdf = Except.ok cpdf →
        sp Converter.HtmlToPng = Except.error e →
        (handle_write sp img p d v q).2 = some e
        ∧ ∀ a ∈ (handle_write sp img p d v q).1, isReadAct a = false) := by
  rw [handle_write_html hext]
  refine ⟨?_, ?_, ?_⟩
  · intro cpdf cpng hpd hpn
    simp only [handleHtml, convert_snd_ok hpd, convert_snd_ok hpn,
      convert_fst_ok hpd, convert_fst_ok hpn]
    refine ⟨by trivial, ?_, ?_⟩ <;> simp
  · intro e hpd
    simp only [handleHtml, convert_snd_err hpd, convert_fst_err hpd]
    refine ⟨by trivial, ?_⟩
    intro a ha
    rw [List.mem_append] at ha
    cases ha with
    | inl h => rw [mem_print_if h]; rfl
    | inr h =>
        rw [List.mem_singleton] at h
        subst h
        rfl
  · intro cpdf e hpd hpn
    simp only [handleHtml, convert_snd_ok hpd, convert_snd_err hpn,
      convert_fst_ok hpd, convert_fst_err hpn]
    refine ⟨by trivial, ?_⟩
    intro a ha
    rw [List.mem_append] at ha
    cases ha with
    | inl h =>
        rw [List.mem_append] at h
        cases h with
        | inl h1 => rw [mem_print_if h1]; rfl
        | inr h1 =>
            rw [List.mem_singleton] at h1
            subst h1
            rfl
    | inr h =>
        rw [List.mem_append] at h
        cases h with
        | inl h1 => rw [mem_print_if h1]; rfl
        | inr h1 =>
            rw [List.mem_singleton] at h1
            subst h1
            rfl

/-- Witness for C4's amended theorem: both concrete environments evaluated at
`doc.html`. -/
theorem c4_witness :
    (handle_write spawnOkAll (Except.ok ()) pHtml false false false).2 = none
    ∧ (handle_write spawnPdfFails (Except.ok ()) pHtml false false false).2
        = some "spawn failure" :=
  ⟨((c4_amended spawnOkAll (Except.ok ()) pHtml false false false (by decide)).1
      child0 child0 rfl rfl).1,
   ((c4_amended spawnPdfFails (Except.ok ()) pHtml false false false (by decide)).2.1
      "spawn failure" rfl).1⟩

/-! ## Claim C7 — derived output paths -/

/-- C7: derived output paths equal the input path with only its extension
replaced.  A `.md` (resp. `.adoc`) input is converted with output the same
path with extension `html`; a `.html` input yields exactly two conversion
steps, HTML-to-PDF and HTML-to-image, both reading the same input path, with
outputs the same path with extensions `pdf` and `png`; and in each case the
derived path keeps the directory and stem and carries exactly the new
extension (`replacesExt`). -/
theorem c7_output_paths (sp : Converter → Except String Child) (ch : Converter → Child)
    (img : Except String Unit) (p : RPath) (d v q : Bool)
    (hok : ∀ c, sp c = Except.ok (ch c)) :
    (RPath.extension p = some mdChars →
        spawnActsOf (handle_write sp img p d v q).1
          = [(Converter.MarkdownToHtml, p, RPath.setExtension p htmlChars)]
        ∧ replacesExt p htmlChars (RPath.setExtension p htmlChars))
    ∧ (RPath.extension p = some adocChars →
        spawnActsOf (handle_write sp img p d v q).1
          = [(Converter.AsciidocToHtml, p, RPath.setExtension p htmlChars)]
        ∧ replacesExt p htmlChars (RPath.setExtension p htmlChars))
    ∧ (RPath.extension p = some htmlChars →
        spawnActsOf (handle_write sp img p d v q).1
          = [(Converter.HtmlToPdf, p, RPath.setExtension p pdfChars),
             (Converter.HtmlToPng, p, RPath.setExtension p pngChars)]
        ∧ replacesExt p pdfChars (RPath.setExtension p pdfChars)
        ∧ replacesExt p pngChars (RPath.setExtension p pngChars)) := by
  refine ⟨fun h => ?_, fun h => ?_, fun h => ?_⟩
  · rw [handle_write_md h]
    exact ⟨spawnActsOf_handleMarkup Converter.MarkdownToHtml (hok _) d v q,
           replacesExt_setExtension htmlChars h (by decide) (by decide)⟩
  · rw [handle_write_adoc h]
    exact ⟨spawnActsOf_handleMarkup Converter.AsciidocToHtml (hok _) d v q,
           replacesExt_setExtension htmlChars h (by decide) (by decide)⟩
  · rw [handle_write_html h]
    exact ⟨spawnActsOf_handleHtml (hok _) (hok _) d v q,
           replacesExt_setExtension pdfChars h (by decide) (by decide),
           replacesExt_setExtension pngChars h (by decide) (by decide)⟩

/-- Witness for C7 at the concrete path `doc.html` with all spawns
succeeding. -/
theorem c7_witness :
    spawnActsOf (handle_write spawnOkAll (Except.ok ()) pHtml false false false).1
      = [(Converter.HtmlToPdf, pHtml, RPath.setExtension pHtml pdfChars),
         (Converter.HtmlToPng, pHtml, RPath.setExtension pHtml pngChars)] :=
  ((c7_output_paths spawnOkAll (fun _ => child0) (Except.ok ()) pHtml false false false
      (fun _ => rfl)).2.2 (by decide)).1

end Writekit
